import Mathlib

/-!
Verification development for the struct-to-pflags code generator.

The Go sources (run-generate.go, run-validate.go, run-validate-rec.go) are
shallowly embedded below: pure Go functions become Lean functions over
`String`/`List`, the relevant parts of the Go AST package become an explicit
inductive syntax model, Go maps become association lists with insert-or-replace
semantics, and fallible functions return `Except`/`Option`.  Strings are
modelled at the character-list level (the repository only handles ASCII
identifiers and tags, where Go's byte indexing coincides with character
indexing).  File-system and subprocess effects (reading files, resolving
packages with an external tool, writing output) stay with the caller; the
embedded functions receive the corresponding data as arguments.
-/

/-! ## Character-level models of the Go standard library string functions -/

/-- Whitespace recognised by Go's `unicode.IsSpace` restricted to ASCII:
space, tab, newline, vertical tab, form feed, carriage return. -/
def goSpaceChar (c : Char) : Bool :=
  c = ' ' || c = '\t' || c = '\n' || c = '\x0b' || c = '\x0c' || c = '\r'

/-- Drop the literal `pat` from the front of `cs`; `none` when `cs` does not
start with `pat`. -/
def listDropPre : List Char → List Char → Option (List Char)
  | [], cs => some cs
  | _ :: _, [] => none
  | p :: ps, c :: cs => if c = p then listDropPre ps cs else none

/-- Find the first occurrence of `pat` in a character list, returning the
characters before it and the characters after it. -/
def strFindSplit (pat : List Char) : List Char → Option (List Char × List Char)
  | [] => none
  | c :: rest =>
    match listDropPre pat (c :: rest) with
    | some rem => some ([], rem)
    | none =>
      match strFindSplit pat rest with
      | some (pre, post) => some (c :: pre, post)
      | none => none

/-- Fuelled splitting worker; the fuel is an upper bound on the number of
separator occurrences, so starting from the input length this computes Go's
`strings.Split` for a non-empty separator. -/
def strSplitOnFuel (pat : List Char) : Nat → List Char → List (List Char)
  | 0, cs => [cs]
  | fuel+1, cs =>
    match strFindSplit pat cs with
    | none => [cs]
    | some (pre, post) => pre :: strSplitOnFuel pat fuel post

/-- Model of Go `strings.Split` (and of `strings.SplitN` with a large limit)
for a non-empty separator. -/
def strSplitOn (s sep : String) : List String :=
  if sep = "" then [s]
  else (strSplitOnFuel sep.data (s.data.length + 1) s.data).map String.mk

/-- Model of Go `strings.Join`. -/
def strIntercalate (sep : String) : List String → String
  | [] => ""
  | [x] => x
  | x :: xs => x ++ sep ++ strIntercalate sep xs

/-- Model of Go `strings.ReplaceAll`, via the split-then-join identity
`Replace(s, old, new, -1) = Join(Split(s, old), new)`. -/
def strReplaceAll (s old new : String) : String :=
  strIntercalate new (strSplitOn s old)

/-- Model of Go `strings.Contains`. -/
def strHasSub (s sub : String) : Bool :=
  (strFindSplit sub.data s.data).isSome

/-- Model of Go `strings.HasSuffix`. -/
def strEndsWith (s suf : String) : Bool := suf.data.isSuffixOf s.data

/-- Model of Go `strings.TrimSuffix`. -/
def strDropSuf (s suf : String) : String :=
  if suf.data.isSuffixOf s.data then
    String.mk (s.data.take (s.data.length - suf.data.length))
  else s

/-- Model of Go `strings.TrimPrefix`. -/
def strTrimPre (s pre : String) : String :=
  match listDropPre pre.data s.data with
  | some rest => String.mk rest
  | none => s

/-- Model of Go `strings.TrimRight` with a cutset given as a predicate. -/
def strTrimRight (s : String) (p : Char → Bool) : String :=
  String.mk (s.data.reverse.dropWhile p).reverse

/-- Model of Go `strings.TrimLeft` with a cutset given as a predicate. -/
def strTrimLeft (s : String) (p : Char → Bool) : String :=
  String.mk (s.data.dropWhile p)

/-- Model of Go `strings.TrimSpace`. -/
def strTrim (s : String) : String :=
  strTrimLeft (strTrimRight s goSpaceChar) goSpaceChar

/-- Model of Go `strings.Trim` with cutset a single quote character. -/
def strTrimQuotes (s : String) : String :=
  strTrimLeft (strTrimRight s (fun c => c = '"')) (fun c => c = '"')

/-- Splitting on a character predicate, used to model `strings.Fields`. -/
def splitPredAux (p : Char → Bool) : List Char → List Char → List (List Char)
  | [], acc => [acc.reverse]
  | c :: rest, acc =>
    if p c then acc.reverse :: splitPredAux p rest []
    else splitPredAux p rest (c :: acc)

/-- Model of Go `strings.Fields`: split around runs of whitespace. -/
def goFields (s : String) : List String :=
  ((splitPredAux goSpaceChar s.data []).map String.mk).filter (fun t => t ≠ "")

/-- Word separator test of Go `strings.Title` restricted to ASCII: letters,
digits and underscore are word characters, everything else separates words. -/
def goIsSep (c : Char) : Bool := !(c.isAlphanum || c = '_')

/-- Worker for `goTitle`: upper-case a character that follows a separator. -/
def goTitleAux : Bool → List Char → List Char
  | _, [] => []
  | prevSep, c :: cs => (if prevSep then c.toUpper else c) :: goTitleAux (goIsSep c) cs

/-- Model of Go `strings.Title` (ASCII): upper-case the first letter of every
word.  On a Go identifier this capitalises exactly the first character. -/
def goTitle (s : String) : String := String.mk (goTitleAux true s.data)

/-- Model of Go `fmt` verb `%q` for printable ASCII strings: wrap in quotes,
escaping quotes, backslashes and common control characters. -/
def goQuoteChar (c : Char) : List Char :=
  if c = '"' then ['\\', '"']
  else if c = '\\' then ['\\', '\\']
  else if c = '\n' then ['\\', 'n']
  else if c = '\t' then ['\\', 't']
  else if c = '\r' then ['\\', 'r']
  else [c]

/-- Model of Go `fmt.Sprintf` with the `%q` verb on a printable ASCII string. -/
def goQuote (s : String) : String :=
  "\"" ++ String.mk (s.data.flatMap goQuoteChar) ++ "\""

/-- Concatenation of emitted chunks, modelling `bytes.Buffer` writes. -/
def strJoin (l : List String) : String := l.foldl (· ++ ·) ""

/-! ## Models of Go `path/filepath` used by run-validate-rec.go -/

/-- Simplified model of `filepath.Clean` for slash-separated paths: drop empty
and `.` components, resolve `..` against preceding components, and never
return the empty string. -/
def goClean (path : String) : String :=
  if path = "" then "."
  else
    let rooted := path.data.head? = some '/'
    let comps := (strSplitOn path "/").filter (fun c => c ≠ "" && c ≠ ".")
    let out := comps.foldl (fun acc c =>
      if c = ".." then
        match acc with
        | [] => if rooted then [] else [".."]
        | a :: rest => if a = ".." then c :: acc else rest
      else c :: acc) []
    let s := strIntercalate "/" out.reverse
    if rooted then "/" ++ s
    else if s = "" then "." else s

/-- Model of `filepath.Join` on two components: skip empty components, then
clean; all-empty input yields the empty string. -/
def filepathJoin (a b : String) : String :=
  if a = "" && b = "" then ""
  else if a = "" then goClean b
  else if b = "" then goClean a
  else goClean (a ++ "/" ++ b)

/-- Model of `filepath.Dir`: everything up to and including the final slash,
cleaned; `.` when the path has no slash. -/
def filepathDir (path : String) : String :=
  let dirRev := path.data.reverse.dropWhile (fun c => c ≠ '/')
  goClean (String.mk dirRev.reverse)

/-! ## Syntax model: the fragment of go/ast that the generator inspects -/

/-- Expressions, covering the shapes `getTypeString`, `extractDefaults` and
the field extractors discriminate on.  A composite literal's elements are
pairs `(key?, value)`: `(some k, v)` embeds an `ast.KeyValueExpr`, `(none, v)`
an unkeyed element. -/
inductive GoExpr where
  | ident (name : String)
  | selector (x : GoExpr) (sel : String)
  | array (elt : GoExpr)
  | star (x : GoExpr)
  | basicLit (value : String)
  | compositeLit (elts : List (Option GoExpr × GoExpr))
  | otherExpr

/-- One field declaration of a struct type (`ast.Field`): declared names
(empty for an embedded field), type expression, optional tag literal text,
leading doc-comment lines and trailing same-line comment lines. -/
structure GoField where
  names : List String
  typ : GoExpr
  tag : Option String := none
  doc : List String := []
  lineComment : List String := []

/-- One `ast.ValueSpec` of a var declaration: names with parallel values. -/
structure GoValueSpec where
  names : List String
  values : List GoExpr

/-- The struct-ness of a type declaration (`ast.TypeSpec.Type`). -/
inductive GoTypeDef where
  | structType (fields : List GoField)
  | otherType

/-- Top-level declarations of a parsed file, as far as the generator looks. -/
inductive GoDecl where
  | varDecl (specs : List GoValueSpec)
  | typeDecl (name : String) (ty : GoTypeDef)
  | otherDecl

/-- A parsed source file (`ast.File`): package name and declarations. -/
structure GoFile where
  pkgName : String
  decls : List GoDecl

/-! ## Data model of run-generate.go -/

/-- Translation of the `fieldInfo` struct of run-generate.go.  The Go field
`Type` is spelled `Typ` because `Type` is reserved in Lean. -/
structure fieldInfo where
  Name : String
  Typ : String
  Comment : String := ""
  Skip : Bool := false
  DefaultValue : String := ""
  DefaultValueRef : String := ""
  IsEmbedded : Bool := false
  EmbeddedTypeName : String := ""
  EmbeddedPkgAlias : String := ""
  EmbeddedPkgPath : String := ""
  deriving Repr, DecidableEq

/-- Translation of the `embeddedStructInfo` struct of run-generate.go. -/
structure embeddedStructInfo where
  TypeName : String
  PkgAlias : String
  PkgPath : String
  Fields : List fieldInfo
  FilePath : String := ""
  deriving Repr, DecidableEq

/-! ## run-generate.go: extraction -/

/-- Translation of `getTypeString`. -/
def getTypeString : GoExpr → String
  | .ident name => name
  | .selector x sel => getTypeString x ++ "." ++ sel
  | .array elt => "[]" ++ getTypeString elt
  | .star x => "*" ++ getTypeString x
  | _ => "unknown"

/-- Skip detection of `extractStructFields`: the tag literal contains the
marker `pflags:"-"`. -/
def hasSkipTag (tag : Option String) : Bool :=
  match tag with
  | some tagValue => strHasSub tagValue "pflags:\"-\""
  | none => false

/-- Comment cleaning of `extractStructFields`: trim space, strip the leading
comment marker, trim space again, trim surrounding quotes. -/
def cleanComment (text : String) : String :=
  strTrimQuotes (strTrim (strTrimPre (strTrim text) "//"))

/-- Comment selection of `extractStructFields`: first doc-comment line if
present, else first trailing-comment line, else empty. -/
def extractComment (f : GoField) : String :=
  match f.doc with
  | t :: _ => cleanComment t
  | [] =>
    match f.lineComment with
    | t :: _ => cleanComment t
    | [] => ""

/-- The per-field-list loop body of `extractStructFields` (lines 151-188 of
run-generate.go): skip unnamed (embedded) fields, record the first declared
name, the type string, the skip marker and the cleaned comment. -/
def extractFieldsFromList (fields : List GoField) : List fieldInfo :=
  fields.filterMap (fun f =>
    match f.names with
    | [] => none
    | fieldName :: _ =>
      some { Name := fieldName
             Typ := getTypeString f.typ
             Comment := extractComment f
             Skip := hasSkipTag f.tag })

/-- Translation of `extractStructFields`: collect the fields of every
struct-typed declaration named `structName` (the `ast.Inspect` callback fires
on each match), failing when none exists. -/
def extractStructFields (file : GoFile) (structName : String) :
    Except String (List fieldInfo) :=
  let hits := file.decls.filterMap (fun d =>
    match d with
    | .typeDecl n (.structType fs) => if n = structName then some fs else none
    | _ => none)
  if hits.isEmpty then .error ("struct " ++ structName ++ " not found")
  else .ok (hits.foldl (fun acc fs => acc ++ extractFieldsFromList fs) [])

/-- The conventional defaults-value name: `"default" + strings.Title(name)`. -/
def defaultVarName (structName : String) : String := "default" ++ goTitle structName

/-- Go map assignment on an association list: replace the value of an
existing key, or append a new entry. -/
def mapInsert (m : List (String × String)) (k v : String) : List (String × String) :=
  if m.any (fun p => p.1 = k) then
    m.map (fun p => if p.1 = k then (k, v) else p)
  else m ++ [(k, v)]

/-- Key-membership observation of the association-list map. -/
def mapHasKey (m : List (String × String)) (k : String) : Bool :=
  m.any (fun p => p.1 = k)

/-- The composite-literal loop of `extractDefaults` (lines 229-242): insert
one entry per keyed element whose key is an identifier. -/
def defaultsOfElts (dvn : String) (m : List (String × String))
    (elts : List (Option GoExpr × GoExpr)) : List (String × String) :=
  elts.foldl (fun m e =>
    match e.1 with
    | some (.ident k) => mapInsert m k (dvn ++ "." ++ k)
    | _ => m) m

/-- The per-spec loop of `extractDefaults` (lines 216-243): for each name
equal to the defaults-value name whose parallel initializer is a composite
literal, collect its keyed elements. -/
def defaultsOfSpec (dvn : String) (m : List (String × String))
    (spec : GoValueSpec) : List (String × String) :=
  spec.names.enum.foldl (fun m iname =>
    if iname.2 ≠ dvn then m
    else
      match spec.values.get? iname.1 with
      | some (.compositeLit elts) => defaultsOfElts dvn m elts
      | _ => m) m

/-- Translation of `extractDefaults` (lines 200-250): walk every var
declaration of the file, collecting keys of every composite literal bound to
the defaults-value name; the error component is always `none`, mirroring the
unconditional `return defaults, nil`. -/
def extractDefaults (file : GoFile) (structName : String) :
    List (String × String) × Option String :=
  let dvn := defaultVarName structName
  (file.decls.foldl (fun m d =>
    match d with
    | .varDecl specs => specs.foldl (defaultsOfSpec dvn) m
    | _ => m) [], none)

/-- The defaults-merging loop of `generateCode` (lines 110-114): a field with
an entry in the defaults map gets its `DefaultValueRef` set. -/
def mergeDefaults (structFields : List fieldInfo)
    (defaults : List (String × String)) : List fieldInfo :=
  structFields.map (fun f =>
    match defaults.lookup f.Name with
    | some val => { f with DefaultValueRef := val }
    | none => f)

/-- The embedded-defaults loop of `generateCode` (lines 122-129): every
resolved embedded field's `DefaultValueRef` is unconditionally rewritten to
`default<HostType>.<FieldName>`. -/
def mergeEmbeddedDefaults (structName : String)
    (embeddedStructs : List embeddedStructInfo) : List embeddedStructInfo :=
  embeddedStructs.map (fun e =>
    { e with Fields := e.Fields.map (fun f =>
        { f with DefaultValueRef := defaultVarName structName ++ "." ++ f.Name }) })

/-! ## run-generate.go: renderer helpers -/

/-- Translation of `camelToKebab`'s loop body, carrying the running index
(Go's byte index, which equals the character index on ASCII input). -/
def camelToKebabAux : Nat → List Char → List Char
  | _, [] => []
  | i, r :: rest =>
    (if i > 0 && r.isUpper then ['-'] else []) ++ (r.toLower :: camelToKebabAux (i+1) rest)

/-- Translation of `camelToKebab`. -/
def camelToKebab (s : String) : String := String.mk (camelToKebabAux 0 s.data)

/-- Translation of `getPflagType`: the registration-accessor selection switch. -/
def getPflagType (goType : String) : String :=
  if goType = "string" then "String"
  else if goType = "bool" then "Bool"
  else if goType = "int" || goType = "int32" || goType = "int64" then "Int"
  else if goType = "uint" || goType = "uint32" || goType = "uint64" then "Uint"
  else if goType = "float32" || goType = "float64" then "Float64"
  else if goType = "[]string" then "StringSlice"
  else if goType = "time.Duration" then "Duration"
  else "String"

/-- Translation of `getFlagGetterType`: the getter-accessor selection switch. -/
def getFlagGetterType (goType : String) : String :=
  if goType = "string" then "GetString"
  else if goType = "bool" then "GetBool"
  else if goType = "int" || goType = "int32" || goType = "int64" then "GetInt"
  else if goType = "uint" || goType = "uint32" || goType = "uint64" then "GetUint"
  else if goType = "float32" || goType = "float64" then "GetFloat64"
  else if goType = "[]string" then "GetStringSlice"
  else if goType = "time.Duration" then "GetDuration"
  else "GetString"

/-- Translation of `formatDefaultValue`. -/
def formatDefaultValue (goType value : String) : String :=
  if value = "" then
    if goType = "string" then "\"\""
    else if goType = "bool" then "false"
    else if goType = "int" || goType = "int32" || goType = "int64" ||
            goType = "uint" || goType = "uint32" || goType = "uint64" then "0"
    else if goType = "float32" || goType = "float64" then "0.0"
    else if goType = "[]string" then "nil"
    else "\"\""
  else
    if goType = "string" then "\"" ++ value ++ "\""
    else if goType = "bool" || goType = "int" || goType = "int32" ||
            goType = "int64" || goType = "uint" || goType = "uint32" ||
            goType = "uint64" || goType = "float32" || goType = "float64" then value
    else "\"" ++ value ++ "\""

/-- Translation of `embeddedFieldFlagName`: strip the suffixes `Defaults`,
`Options`, `Config` in that order, then compose the constant name. -/
def embeddedFieldFlagName (embeddedTypeName fieldName : String) : String :=
  let pfx := strDropSuf embeddedTypeName "Defaults"
  let pfx := strDropSuf pfx "Options"
  let pfx := strDropSuf pfx "Config"
  "flag" ++ pfx ++ goTitle fieldName ++ "DefaultValue"

/-- Translation of `embeddedFieldKebabName`. -/
def embeddedFieldKebabName (embeddedTypeName fieldName : String) : String :=
  let pfx := strDropSuf embeddedTypeName "Defaults"
  let pfx := strDropSuf pfx "Options"
  let pfx := strDropSuf pfx "Config"
  camelToKebab pfx ++ "-" ++ camelToKebab fieldName ++ "-default-value"

/-- Translation of `lowerFirst` (Go lower-cases the first byte; ASCII). -/
def lowerFirst (s : String) : String :=
  match s.data with
  | [] => ""
  | c :: cs => String.mk (c.toLower :: cs)

/-! ## run-generate.go: generatePflagsCode, section by section

Each section function below returns the list of strings written to the
`bytes.Buffer` by the corresponding loop of `generatePflagsCode`
(lines 577-767); `generatePflagsCode` itself concatenates them.  The final
`format.Source` pass is the external canonical formatter (spec section 4.4)
and is not modelled: the functions below produce the text handed to it. -/

/-- The `needsTime` computation (lines 589-608): a `time` import is needed
iff some own field or some embedded field has type `time.Duration`. -/
def needsTime (fields : List fieldInfo) (embeddedStructs : List embeddedStructInfo) : Bool :=
  let nt := fields.any (fun f => f.Typ = "time.Duration")
  if nt then nt
  else embeddedStructs.any (fun e => e.Fields.any (fun f => f.Typ = "time.Duration"))

/-- The import block body (lines 611-619): optional `time` import, the pflag
import, one import per embedded package. -/
def importChunks (fields : List fieldInfo) (embeddedStructs : List embeddedStructInfo) :
    List String :=
  (if needsTime fields embeddedStructs then ["\t\"time\"\n\n"] else []) ++
  ["\t\"github.com/spf13/pflag\"\n"] ++
  embeddedStructs.map (fun e => "\n\t\"" ++ e.PkgPath ++ "\"\n")

/-- One constant-block line for an own field (lines 627-629). -/
def constChunkOwn (f : fieldInfo) : String :=
  "\t" ++ ("flag" ++ goTitle f.Name) ++ " = \"" ++ camelToKebab f.Name ++ "\"\n"

/-- The own-fields constant loop (lines 623-630): skipped fields are passed
over. -/
def constChunksOwn (fields : List fieldInfo) : List String :=
  fields.filterMap (fun f => if f.Skip then none else some (constChunkOwn f))

/-- One constant-block line for an embedded field (lines 638-640). -/
def constChunkEmb (typeName : String) (f : fieldInfo) : String :=
  "\t" ++ embeddedFieldFlagName typeName f.Name ++ " = \"" ++
    embeddedFieldKebabName typeName f.Name ++ "\"\n"

/-- The embedded constant loop (lines 632-642): a group comment then one
line per non-skipped field. -/
def constChunksEmb (embeddedStructs : List embeddedStructInfo) : List String :=
  embeddedStructs.flatMap (fun e =>
    ("\n\t// " ++ e.TypeName ++ " flags\n") ::
    e.Fields.filterMap (fun f => if f.Skip then none else some (constChunkEmb e.TypeName f)))

/-- The default expression passed for an own field (lines 655-658): the
formatted zero/default literal, overridden by `DefaultValueRef` when set. -/
def ownRegDefaultVal (f : fieldInfo) : String :=
  if f.DefaultValueRef ≠ "" then f.DefaultValueRef
  else formatDefaultValue f.Typ f.DefaultValue

/-- One registration call for an own field (lines 647-661). -/
def regChunkOwn (f : fieldInfo) : String :=
  "\tflags." ++ getPflagType f.Typ ++ "(" ++ ("flag" ++ goTitle f.Name) ++ ", " ++
    ownRegDefaultVal f ++ ", " ++ goQuote f.Comment ++ ")\n"

/-- The own-fields registration loop: skipped fields are passed over. -/
def regChunksOwn (fields : List fieldInfo) : List String :=
  fields.filterMap (fun f => if f.Skip then none else some (regChunkOwn f))

/-- The default expression passed for an embedded field (lines 677-680):
`DefaultValueRef` when set, else the formatted zero/default literal. -/
def embRegDefaultVal (f : fieldInfo) : String :=
  if f.DefaultValueRef = "" then formatDefaultValue f.Typ f.DefaultValue
  else f.DefaultValueRef

/-- One registration call for an embedded field (lines 666-684), with the
comment fallback `set <kebab-name> default value`. -/
def regChunkEmb (typeName : String) (f : fieldInfo) : String :=
  let comment := if f.Comment = "" then "set " ++ camelToKebab f.Name ++ " default value"
                 else f.Comment
  "\tflags." ++ getPflagType f.Typ ++ "(" ++ embeddedFieldFlagName typeName f.Name ++ ", " ++
    embRegDefaultVal f ++ ", " ++ goQuote comment ++ ")\n"

/-- The embedded registration loop (lines 664-685). -/
def regChunksEmb (embeddedStructs : List embeddedStructInfo) : List String :=
  embeddedStructs.flatMap (fun e =>
    ("\n\t// " ++ e.TypeName ++ " flags\n") ::
    e.Fields.filterMap (fun f => if f.Skip then none else some (regChunkEmb e.TypeName f)))

/-- The registration function (lines 646-686). -/
def withFlagsChunks (fields : List fieldInfo) (embeddedStructs : List embeddedStructInfo)
    (structNameC : String) : List String :=
  ["func with" ++ structNameC ++ "Flags(flags *pflag.FlagSet) \x7b\n"] ++
  regChunksOwn fields ++ regChunksEmb embeddedStructs ++ ["\x7d\n\n"]

/-- The `skippedFields` collection of lines 689-694. -/
def skippedFields (fields : List fieldInfo) : List fieldInfo :=
  fields.filter (fun f => f.Skip)

/-- One extra loader parameter per skipped field (lines 698-700). -/
def loadParamChunk (f : fieldInfo) : String := ", " ++ f.Name ++ " " ++ f.Typ

/-- The loader's extra parameter list: the skipped fields in declaration
order. -/
def loadParamChunks (fields : List fieldInfo) : List String :=
  (skippedFields fields).map loadParamChunk

/-- One getter block for an own field (lines 704-715). -/
def getterChunkOwn (f : fieldInfo) : String :=
  "\t" ++ f.Name ++ ", err := flags." ++ getFlagGetterType f.Typ ++ "(" ++
    ("flag" ++ goTitle f.Name) ++ ")\n" ++
  "\tif err != nil \x7b\n\t\treturn nil, err\n\t\x7d\n\n"

/-- The own-fields getter loop: skipped fields are passed over. -/
def getterChunksOwn (fields : List fieldInfo) : List String :=
  fields.filterMap (fun f => if f.Skip then none else some (getterChunkOwn f))

/-- One getter block for an embedded field (lines 724-732), binding a
lower-cased local variable. -/
def getterChunkEmb (typeName : String) (f : fieldInfo) : String :=
  "\t" ++ lowerFirst f.Name ++ ", err := flags." ++ getFlagGetterType f.Typ ++ "(" ++
    embeddedFieldFlagName typeName f.Name ++ ")\n" ++
  "\tif err != nil \x7b\n\t\treturn nil, err\n\t\x7d\n\n"

/-- The embedded getter loop (lines 718-734). -/
def getterChunksEmb (embeddedStructs : List embeddedStructInfo) : List String :=
  embeddedStructs.flatMap (fun e =>
    ("\t// " ++ e.TypeName ++ "\n") ::
    e.Fields.filterMap (fun f => if f.Skip then none else some (getterChunkEmb e.TypeName f)))

/-- One line of the returned struct literal for an own field (lines 738-740):
every field, skipped or not, is populated from the identically-named binding
(a flag getter result for registered fields, the loader parameter for skipped
ones). -/
def returnChunkOwn (f : fieldInfo) : String :=
  "\t\t" ++ f.Name ++ ": " ++ f.Name ++ ",\n"

/-- The own-fields part of the returned struct literal. -/
def returnChunksOwn (fields : List fieldInfo) : List String :=
  fields.map returnChunkOwn

/-- The embedded sub-literals of the returned struct literal (lines 742-749). -/
def returnChunksEmb (embeddedStructs : List embeddedStructInfo) : List String :=
  embeddedStructs.flatMap (fun e =>
    ["\t\t" ++ e.TypeName ++ ": " ++ e.PkgAlias ++ "." ++ e.TypeName ++ "\x7b\n"] ++
    e.Fields.map (fun f => "\t\t\t" ++ f.Name ++ ": " ++ lowerFirst f.Name ++ ",\n") ++
    ["\t\t\x7d,\n"])

/-- The loader function (lines 697-751). -/
def loadFuncChunks (fields : List fieldInfo) (embeddedStructs : List embeddedStructInfo)
    (structName structNameC : String) : List String :=
  ["func load" ++ structNameC ++ "(flags *pflag.FlagSet"] ++
  loadParamChunks fields ++
  [") (*" ++ structName ++ ", error) \x7b\n"] ++
  getterChunksOwn fields ++ getterChunksEmb embeddedStructs ++
  ["\treturn &" ++ structName ++ "\x7b\n"] ++
  returnChunksOwn fields ++ returnChunksEmb embeddedStructs ++
  ["\t\x7d, nil\n", "\x7d\n"]

/-- Translation of `generatePflagsCode` (lines 577-767), as the text written
to the buffer before the external `format.Source` pass. -/
def generatePflagsCode (fields : List fieldInfo) (embeddedStructs : List embeddedStructInfo)
    (structName packageName : String) : String :=
  let structNameC := goTitle structName
  strJoin
    (["// Code generated by struct-to-pflags; DO NOT EDIT.\n\n",
      "package " ++ packageName ++ "\n\n",
      "import (\n"] ++
     importChunks fields embeddedStructs ++
     [")\n\n", "const (\n"] ++
     constChunksOwn fields ++ constChunksEmb embeddedStructs ++
     [")\n\n"] ++
     withFlagsChunks fields embeddedStructs structNameC ++
     loadFuncChunks fields embeddedStructs structName structNameC ++
     (if needsTime fields embeddedStructs then
        ["\n// Ensure unused import is used\n", "var _ = time.Second\n"]
      else []))

/-! ## run-validate.go -/

/-- Translation of `normalizeCode` (run-validate.go lines 63-80): unify line
endings, trim trailing blanks per line, trim trailing newlines. -/
def normalizeCode (code : String) : String :=
  let code := strReplaceAll code "\r\n" "\n"
  let code := strReplaceAll code "\r" "\n"
  let lines := strSplitOn code "\n"
  let normalized := lines.map (fun line => strTrimRight line (fun c => c = ' ' || c = '\t'))
  let result := strIntercalate "\n" normalized
  strTrimRight result (fun c => c = '\n')

/-- Translation of `validateGen` (run-validate.go lines 19-61) as a function
of the freshly generated text and the existing file's text (producing and
reading them is the caller's I/O).  The function only compares and reports:
it contains no write to the output file. -/
def validateGen (outputFile expectedCode existingCode : String) : Except String Unit :=
  if normalizeCode expectedCode = normalizeCode existingCode then .ok ()
  else .error (outputFile ++ " is out of date")

/-! ## run-validate-rec.go -/

/-- Translation of the `generateDirective` struct. -/
structure generateDirective where
  sourceFile : String
  filePath : String := ""
  structName : String := ""
  outputFile : String := ""
  pkgName : String := ""
  lineNumber : Nat := 0
  deriving Repr, DecidableEq

/-- The `=`-splitting preprocessing of `parseGenerateDirective`
(lines 138-148): each token is split at its first `=` into two tokens. -/
def splitEqOnce (p : String) : List String :=
  match strSplitOn p "=" with
  | [] => [p]
  | [k] => [k]
  | k :: rest => [k, strIntercalate "=" rest]

/-- Expansion of all tokens, modelling the `_parts` to `parts` loop. -/
def expandEq (parts : List String) : List String := parts.flatMap splitEqOnce

/-- The flag-scanning loop of `parseGenerateDirective` (lines 150-184): each
recognised flag consumes the following token as its value (erroring when it
is absent); unrecognised tokens are ignored. -/
def parseArgsLoop (sourceDir : String) (d : generateDirective) :
    List String → Except String generateDirective
  | [] => .ok d
  | p :: rest =>
    if p = "-file" then
      match rest with
      | [] => .error "missing value for -file flag"
      | v :: rest2 => parseArgsLoop sourceDir { d with filePath := filepathJoin sourceDir v } rest2
    else if p = "-struct" then
      match rest with
      | [] => .error "missing value for -struct flag"
      | v :: rest2 => parseArgsLoop sourceDir { d with structName := v } rest2
    else if p = "-output" then
      match rest with
      | [] => .error "missing value for -output flag"
      | v :: rest2 => parseArgsLoop sourceDir { d with outputFile := filepathJoin sourceDir v } rest2
    else if p = "-package" || p = "-pkg" then
      match rest with
      | [] => .error "missing value for -package flag"
      | v :: rest2 => parseArgsLoop sourceDir { d with pkgName := v } rest2
    else parseArgsLoop sourceDir d rest

/-- Translation of `parseGenerateDirective` (lines 130-198): tokenise the
argument text, run the flag loop, then require `-file`, `-struct` and
`-output` to have produced values. -/
def parseGenerateDirective (sourceFile args : String) (lineNum : Nat) :
    Except String generateDirective :=
  let d0 : generateDirective := { sourceFile := sourceFile, lineNumber := lineNum }
  let parts := expandEq (goFields args)
  match parseArgsLoop (filepathDir sourceFile) d0 parts with
  | .error e => .error e
  | .ok d =>
    if d.filePath = "" then .error "missing -file flag"
    else if d.structName = "" then .error "missing -struct flag"
    else if d.outputFile = "" then .error "missing -output flag"
    else .ok d

/-- Whitespace class of the Go regexp escape used by the directive pattern. -/
def goRegexSpace (c : Char) : Bool :=
  c = '\t' || c = '\n' || c = '\x0c' || c = '\r' || c = ' '

/-- Model of matching one line against the anchored directive regexp
`^\s*//\s*go:generate\s+struct-to-pflags\s+(.+)$` of
`findGenerateDirectives` (line 77), returning the captured argument text. -/
def matchGenerateLine (line : String) : Option String :=
  let cs := line.data.dropWhile goRegexSpace
  match listDropPre "//".data cs with
  | none => none
  | some cs =>
    let cs := cs.dropWhile goRegexSpace
    match listDropPre "go:generate".data cs with
    | none => none
    | some cs =>
      match cs with
      | [] => none
      | c :: cs2 =>
        if goRegexSpace c then
          match listDropPre "struct-to-pflags".data (cs2.dropWhile goRegexSpace) with
          | none => none
          | some rest =>
            match rest with
            | [] => none
            | r :: rs =>
              if goRegexSpace r then
                let t := rs.dropWhile goRegexSpace
                if t ≠ [] then some (String.mk t)
                else
                  match rs.getLast? with
                  | some l => some (String.mk [l])
                  | none => none
              else none
        else none

/-- The per-file line scan of `findGenerateDirectives` (lines 100-113):
line numbers count from 1; a directive line is parsed, a parse failure is
wrapped with the file path and line number and aborts the scan. -/
def scanFileLines (path : String) (lineNum : Nat) :
    List String → Except String (List generateDirective)
  | [] => .ok []
  | line :: rest =>
    match matchGenerateLine line with
    | none => scanFileLines path (lineNum + 1) rest
    | some args =>
      match parseGenerateDirective path args lineNum with
      | .error e =>
        .error ("failed to parse directive in " ++ path ++ ":" ++ toString lineNum ++ ": " ++ e)
      | .ok d =>
        match scanFileLines path (lineNum + 1) rest with
        | .error e => .error e
        | .ok ds => .ok (d :: ds)

/-- The walk filter of `findGenerateDirectives` (lines 84-92): only `.go`
files that are not generated outputs are scanned. -/
def walkFilterOk (path : String) : Bool :=
  strEndsWith path ".go" && !strEndsWith path ".gen.go" && !strEndsWith path "_gen.go"

/-- Translation of `findGenerateDirectives` (lines 72-127) over the walked
tree presented as a list of files (path with contents as lines), in walk
order: scan each retained file, aborting the whole walk on the first parse
error. -/
def findGenerateDirectives : List (String × List String) → Except String (List generateDirective)
  | [] => .ok []
  | (path, lines) :: rest =>
    if walkFilterOk path then
      match scanFileLines path 1 lines with
      | .error e => .error e
      | .ok ds =>
        match findGenerateDirectives rest with
        | .error e => .error e
        | .ok ds2 => .ok (ds ++ ds2)
    else findGenerateDirectives rest

/-! ## General-purpose lemmas -/

theorem str_append_ne_empty_left (s t : String) (h : s ≠ "") : s ++ t ≠ "" := by
  intro he
  apply h
  have h2 := congrArg String.data he
  rw [String.data_append] at h2
  rcases List.append_eq_nil.mp h2 with ⟨ha, _⟩
  exact String.ext ha

theorem foldl_pres_inv {M α : Type} (step : M → α → M) (inv : M → Prop)
    (hstep : ∀ m x, inv m → inv (step m x)) :
    ∀ (l : List α) (m : M), inv m → inv (l.foldl step m) := by
  intro l
  induction l with
  | nil => intro m hm; exact hm
  | cons x xs ih => intro m hm; exact ih (step m x) (hstep m x hm)

theorem foldl_key_iff {M α : Type} (step : M → α → M) (H : M → Prop) (c : α → Bool)
    (hstep : ∀ m x, H (step m x) ↔ (H m ∨ c x = true)) :
    ∀ (l : List α) (m : M), H (l.foldl step m) ↔ (H m ∨ l.any c = true) := by
  intro l
  induction l with
  | nil => intro m; simp
  | cons x xs ih =>
    intro m
    rw [List.foldl_cons, ih (step m x), hstep m x]
    simp [or_assoc]

theorem filterMap_skip_eq (l : List fieldInfo) (g : fieldInfo → String) :
    (l.filterMap (fun f => if f.Skip then none else some (g f))) =
    (l.filter (fun f => !f.Skip)).map g := by
  induction l with
  | nil => rfl
  | cons x xs ih =>
    by_cases hx : x.Skip <;> simp [List.filterMap_cons, List.filter_cons, hx, ih]

/-! ## C5: the camel-to-kebab transform -/

/-- Definition following the claim's words (C5): insert a hyphen immediately
before each uppercase letter that is not at position 0, and lower-case every
character. -/
def kebabSpec (s : String) : String :=
  String.mk ((s.data.enum.map (fun ic =>
    if ic.1 > 0 && ic.2.isUpper then ['-', ic.2.toLower] else [ic.2.toLower])).flatten)

theorem camelToKebabAux_enumFrom (cs : List Char) :
    ∀ n : Nat, camelToKebabAux n cs =
      ((cs.enumFrom n).map (fun ic =>
        if ic.1 > 0 && ic.2.isUpper then ['-', ic.2.toLower] else [ic.2.toLower])).flatten := by
  induction cs with
  | nil => intro n; rfl
  | cons c rest ih =>
    intro n
    simp only [camelToKebabAux, List.enumFrom, List.map_cons, List.flatten_cons, ih (n + 1)]
    by_cases h : n > 0 && c.isUpper <;> simp [h]

/-- C5.  For every field name, `camelToKebab` inserts a hyphen exactly before
each uppercase letter not at position 0 and lower-cases every character; in
particular logFile maps to log-file and enableLogs to enable-logs. -/
theorem camelToKebab_spec_law :
    (∀ s : String, camelToKebab s = kebabSpec s) ∧
    camelToKebab "logFile" = "log-file" ∧
    camelToKebab "enableLogs" = "enable-logs" := by
  refine ⟨fun s => ?_, by decide, by decide⟩
  unfold camelToKebab kebabSpec
  rw [camelToKebabAux_enumFrom, List.enum]

/-! ## C1: the type-tag to accessor mapping -/

/-- C1 counterexample.  The accessor selection is case-sensitive: the tags
bool and BOOL differ only in letter case, yet select different registration
and getter accessors (BOOL falls through to the String fallback), refuting
the claimed case-insensitivity. -/
theorem accessor_case_insensitive_cex :
    getPflagType "bool" = "Bool" ∧ getPflagType "BOOL" = "String" ∧
    getFlagGetterType "bool" = "GetBool" ∧ getFlagGetterType "BOOL" = "GetString" ∧
    getPflagType "BOOL" ≠ getPflagType "bool" := by
  refine ⟨rfl, rfl, rfl, rfl, ?_⟩
  decide

/-- C1 as amended.  The selection functions implement the claimed table on the
exact (lower-case) tag spellings, and every other tag string — including
differently-cased variants of the listed tags — selects the String/GetString
fallback; the matching is case-sensitive, not case-insensitive. -/
theorem accessor_table_law :
    (getPflagType "string" = "String" ∧ getPflagType "bool" = "Bool" ∧
     getPflagType "int" = "Int" ∧ getPflagType "int32" = "Int" ∧
     getPflagType "int64" = "Int" ∧ getPflagType "uint" = "Uint" ∧
     getPflagType "uint32" = "Uint" ∧ getPflagType "uint64" = "Uint" ∧
     getPflagType "float32" = "Float64" ∧ getPflagType "float64" = "Float64" ∧
     getPflagType "[]string" = "StringSlice" ∧ getPflagType "time.Duration" = "Duration") ∧
    (getFlagGetterType "string" = "GetString" ∧ getFlagGetterType "bool" = "GetBool" ∧
     getFlagGetterType "int" = "GetInt" ∧ getFlagGetterType "int32" = "GetInt" ∧
     getFlagGetterType "int64" = "GetInt" ∧ getFlagGetterType "uint" = "GetUint" ∧
     getFlagGetterType "uint32" = "GetUint" ∧ getFlagGetterType "uint64" = "GetUint" ∧
     getFlagGetterType "float32" = "GetFloat64" ∧ getFlagGetterType "float64" = "GetFloat64" ∧
     getFlagGetterType "[]string" = "GetStringSlice" ∧
     getFlagGetterType "time.Duration" = "GetDuration") ∧
    (∀ s : String,
      s ∉ (["string", "bool", "int", "int32", "int64", "uint", "uint32", "uint64",
            "float32", "float64", "[]string", "time.Duration"] : List String) →
      getPflagType s = "String" ∧ getFlagGetterType s = "GetString") := by
  refine ⟨by decide, by decide, ?_⟩
  intro s hs
  simp only [List.mem_cons, List.not_mem_nil, or_false, not_or] at hs
  obtain ⟨h1, h2, h3, h4, h5, h6, h7, h8, h9, h10, h11, h12⟩ := hs
  constructor
  · simp [getPflagType, h1, h2, h3, h4, h5, h6, h7, h8, h9, h10, h11, h12]
  · simp [getFlagGetterType, h1, h2, h3, h4, h5, h6, h7, h8, h9, h10, h11, h12]

/-- Witness for the amended C1 theorem at the concrete unlisted tag myType. -/
theorem accessor_table_law_witness :
    "myType" ∉ (["string", "bool", "int", "int32", "int64", "uint", "uint32", "uint64",
                 "float32", "float64", "[]string", "time.Duration"] : List String) ∧
    (getPflagType "myType" = "String" ∧ getFlagGetterType "myType" = "GetString") :=
  ⟨by decide, accessor_table_law.2.2 "myType" (by decide)⟩

/-! ## C7: the validator's comparison -/

/-- C7.  The validator signals success exactly when the freshly generated
text and the existing text agree after normalization (line-ending
unification, per-line trailing-whitespace stripping, trailing-newline
stripping, all performed by normalizeCode); on disagreement it signals
failure naming the output file.  validateGen is a pure comparison of the two
texts: it contains no write to the output file. -/
theorem validateGen_success_iff :
    ∀ outputFile expectedCode existingCode : String,
      (validateGen outputFile expectedCode existingCode = .ok () ↔
        normalizeCode expectedCode = normalizeCode existingCode) ∧
      (normalizeCode expectedCode ≠ normalizeCode existingCode →
        validateGen outputFile expectedCode existingCode =
          .error (outputFile ++ " is out of date")) := by
  intro o e x
  constructor
  · constructor
    · intro h
      by_contra hne
      simp [validateGen, hne] at h
    · intro h
      simp [validateGen, h]
  · intro hne
    simp [validateGen, hne]

/-- Witness for C7: one equal pair (differing only in normalized-away
whitespace) succeeds, one genuinely different pair fails. -/
theorem validateGen_success_iff_witness :
    validateGen "cfg.gen.go" "package a\n" "package a \n\n" = .ok () ∧
    validateGen "cfg.gen.go" "package a\n" "package b\n" =
      .error ("cfg.gen.go" ++ " is out of date") :=
  ⟨(validateGen_success_iff "cfg.gen.go" "package a\n" "package a \n\n").1.mpr (by decide),
   (validateGen_success_iff "cfg.gen.go" "package a\n" "package b\n").2 (by decide)⟩

/-! ## C9: multi-name field declarations -/

/-- A single-struct source file, for stating extractor laws. -/
def mkStructFile (structName : String) (fs : List GoField) : GoFile :=
  { pkgName := "p", decls := [.typeDecl structName (.structType fs)] }

/-- C9.  The field extractor records exactly one fieldInfo per named field
declaration, using only the first declared name; the remaining names of a
multi-name declaration are dropped.  In particular a declaration of names
a, b yields a single extracted field named a. -/
theorem extract_first_name_only :
    (∀ (structName : String) (fs : List GoField),
      extractStructFields (mkStructFile structName fs) structName =
        .ok (extractFieldsFromList fs) ∧
      (extractFieldsFromList fs).map fieldInfo.Name =
        fs.filterMap (fun f => f.names.head?)) ∧
    (extractFieldsFromList [{ names := ["a", "b"], typ := .ident "string" }]).map
        fieldInfo.Name = ["a"] := by
  refine ⟨fun structName fs => ⟨?_, ?_⟩, rfl⟩
  · simp [extractStructFields, mkStructFile, List.filterMap_cons]
  · induction fs with
    | nil => rfl
    | cons f rest ih =>
      cases hn : f.names with
      | nil => simp [extractFieldsFromList, List.filterMap_cons, hn] at ih ⊢; exact ih
      | cons a t => simp [extractFieldsFromList, List.filterMap_cons, hn] at ih ⊢; exact ih

/-! ## C10 and C2: the default extractor -/

/-- Invariant of the defaults map: every entry's value is the defaults-value
name dotted with the entry's key. -/
def defaultsEntryInv (dvn : String) (m : List (String × String)) : Prop :=
  ∀ kv ∈ m, kv.2 = dvn ++ "." ++ kv.1

theorem mapInsert_pres_inv (dvn : String) (m : List (String × String)) (k : String)
    (hm : defaultsEntryInv dvn m) :
    defaultsEntryInv dvn (mapInsert m k (dvn ++ "." ++ k)) := by
  intro kv hkv
  unfold mapInsert at hkv
  split at hkv
  · rcases List.mem_map.mp hkv with ⟨p, hp, he⟩
    rw [← he]
    by_cases hpk : p.1 = k
    · simp [hpk]
    · simp only [hpk, if_neg, ite_false]
      exact hm p hp
  · rcases List.mem_append.mp hkv with h | h
    · exact hm kv h
    · rw [List.mem_singleton.mp h]

theorem defaultsOfElts_pres_inv (dvn : String) (elts : List (Option GoExpr × GoExpr)) :
    ∀ m, defaultsEntryInv dvn m → defaultsEntryInv dvn (defaultsOfElts dvn m elts) := by
  intro m hm
  unfold defaultsOfElts
  refine foldl_pres_inv _ (defaultsEntryInv dvn) ?_ elts m hm
  intro m' e hm'
  cases he : e.1 with
  | none => simpa [he] using hm'
  | some key =>
    cases key with
    | ident k => simpa [he] using mapInsert_pres_inv dvn m' k hm'
    | selector x sel => simpa [he] using hm'
    | array elt => simpa [he] using hm'
    | star x => simpa [he] using hm'
    | basicLit v => simpa [he] using hm'
    | compositeLit es => simpa [he] using hm'
    | otherExpr => simpa [he] using hm'

theorem defaultsOfSpec_pres_inv (dvn : String) (spec : GoValueSpec) :
    ∀ m, defaultsEntryInv dvn m → defaultsEntryInv dvn (defaultsOfSpec dvn m spec) := by
  intro m hm
  unfold defaultsOfSpec
  refine foldl_pres_inv _ (defaultsEntryInv dvn) ?_ spec.names.enum m hm
  intro m' iname hm'
  by_cases hn : iname.2 ≠ dvn
  · simpa [hn] using hm'
  · simp only [hn, if_neg, ite_false, not_not] at *
    cases hv : spec.values.get? iname.1 with
    | none => simpa [hn, hv] using hm'
    | some val =>
      cases val with
      | compositeLit elts =>
        simpa [hn, hv] using defaultsOfElts_pres_inv dvn elts m' hm'
      | ident n => simpa [hn, hv] using hm'
      | selector x sel => simpa [hn, hv] using hm'
      | array elt => simpa [hn, hv] using hm'
      | star x => simpa [hn, hv] using hm'
      | basicLit v => simpa [hn, hv] using hm'
      | otherExpr => simpa [hn, hv] using hm'

/-- C10.  The default extractor never reports an error (its error component
is literally always none), and it never looks at the value expressions of the
defaults literal: every entry of the returned mapping sends a key k to exactly
default-VarName ++ "." ++ k, determined by the type name and the key alone. -/
theorem extractDefaults_total_and_value_shape :
    ∀ (file : GoFile) (structName : String),
      (extractDefaults file structName).2 = none ∧
      ∀ kv ∈ (extractDefaults file structName).1,
        kv.2 = defaultVarName structName ++ "." ++ kv.1 := by
  intro file structName
  constructor
  · rfl
  · show defaultsEntryInv (defaultVarName structName) (extractDefaults file structName).1
    unfold extractDefaults
    refine foldl_pres_inv _ (defaultsEntryInv (defaultVarName structName)) ?_ file.decls []
      (by intro kv h; cases h)
    intro m d hm
    cases d with
    | varDecl specs =>
      exact foldl_pres_inv _ (defaultsEntryInv (defaultVarName structName))
        (fun m' s hm' => defaultsOfSpec_pres_inv (defaultVarName structName) s m' hm') specs m hm
    | typeDecl n ty => exact hm
    | otherDecl => exact hm

/-- Witness for C10 at a concrete file carrying one defaults declaration. -/
theorem extractDefaults_total_witness :
    ("logFile", "defaultConfig.logFile") ∈
      (extractDefaults
        { pkgName := "p",
          decls := [.varDecl [{ names := ["defaultConfig"],
                                values := [.compositeLit
                                  [(some (.ident "logFile"), .basicLit "x")]] }]] }
        "config").1 ∧
    ("logFile", "defaultConfig.logFile").2 =
      defaultVarName "config" ++ "." ++ ("logFile", "defaultConfig.logFile").1 :=
  ⟨by decide,
   (extractDefaults_total_and_value_shape
      { pkgName := "p",
        decls := [.varDecl [{ names := ["defaultConfig"],
                              values := [.compositeLit
                                [(some (.ident "logFile"), .basicLit "x")]] }]] }
      "config").2 ("logFile", "defaultConfig.logFile") (by decide)⟩

theorem mapInsert_hasKey (m : List (String × String)) (k0 v0 k : String) :
    (∃ v, (k, v) ∈ mapInsert m k0 v0) ↔ ((∃ v, (k, v) ∈ m) ∨ k = k0) := by
  unfold mapInsert
  by_cases hk : k = k0
  · subst hk
    simp only [or_true, iff_true]
    split
    · next hany =>
      rcases List.any_eq_true.mp hany with ⟨p, hp, hpk⟩
      exact ⟨v0, List.mem_map.mpr ⟨p, hp, by simp [of_decide_eq_true hpk]⟩⟩
    · exact ⟨v0, List.mem_append.mpr (Or.inr (List.mem_singleton.mpr rfl))⟩
  · simp only [hk, or_false]
    split
    · next hany =>
      constructor
      · rintro ⟨v, hv⟩
        rcases List.mem_map.mp hv with ⟨p, hp, he⟩
        by_cases hpk : p.1 = k0
        · rw [if_pos hpk] at he
          exact absurd (congrArg Prod.fst he).symm hk
        · rw [if_neg hpk] at he
          exact ⟨v, he ▸ hp⟩
      · rintro ⟨v, hv⟩
        refine ⟨v, List.mem_map.mpr ⟨(k, v), hv, ?_⟩⟩
        rw [if_neg (by simpa using hk)]
    · constructor
      · rintro ⟨v, hv⟩
        rcases List.mem_append.mp hv with h | h
        · exact ⟨v, h⟩
        · exact absurd (congrArg Prod.fst (List.mem_singleton.mp h)) hk
      · rintro ⟨v, hv⟩
        exact ⟨v, List.mem_append.mpr (Or.inl hv)⟩

/-- Key test of one composite-literal element, mirroring the loop body of
extractDefaults. -/
def eltKeyTest (k : String) (e : Option GoExpr × GoExpr) : Bool :=
  match e.1 with
  | some (.ident kk) => kk = k
  | _ => false

/-- Key test of one value spec, mirroring defaultsOfSpec. -/
def specKeyTest (dvn k : String) (spec : GoValueSpec) : Bool :=
  spec.names.enum.any (fun iname =>
    if iname.2 ≠ dvn then false
    else
      match spec.values.get? iname.1 with
      | some (.compositeLit elts) => elts.any (eltKeyTest k)
      | _ => false)

/-- Definition following the corrected claim for C2: a key is produced by the
extractor iff SOME matching defaults declaration of the file (first or later)
carries it as a literal key. -/
def fileHasDefaultKey (file : GoFile) (dvn k : String) : Bool :=
  file.decls.any (fun d =>
    match d with
    | .varDecl specs => specs.any (specKeyTest dvn k)
    | _ => false)

theorem defaultsOfElts_hasKey (dvn k : String) (elts : List (Option GoExpr × GoExpr))
    (m : List (String × String)) :
    (∃ v, (k, v) ∈ defaultsOfElts dvn m elts) ↔
      ((∃ v, (k, v) ∈ m) ∨ elts.any (eltKeyTest k) = true) := by
  unfold defaultsOfElts
  refine foldl_key_iff _ (fun m' => ∃ v, (k, v) ∈ m') (eltKeyTest k) ?_ elts m
  intro m' e
  cases he : e.1 with
  | none => simp [he, eltKeyTest]
  | some key =>
    cases key with
    | ident kk =>
      simpa [eltKeyTest, he, eq_comm] using mapInsert_hasKey m' kk (dvn ++ "." ++ kk) k
    | selector x sel => simp [he, eltKeyTest]
    | array elt => simp [he, eltKeyTest]
    | star x => simp [he, eltKeyTest]
    | basicLit v => simp [he, eltKeyTest]
    | compositeLit es => simp [he, eltKeyTest]
    | otherExpr => simp [he, eltKeyTest]

theorem defaultsOfSpec_hasKey (dvn k : String) (spec : GoValueSpec)
    (m : List (String × String)) :
    (∃ v, (k, v) ∈ defaultsOfSpec dvn m spec) ↔
      ((∃ v, (k, v) ∈ m) ∨ specKeyTest dvn k spec = true) := by
  unfold defaultsOfSpec specKeyTest
  refine foldl_key_iff _ (fun m' => ∃ v, (k, v) ∈ m') _ ?_ spec.names.enum m
  intro m' iname
  by_cases hn : iname.2 ≠ dvn
  · simp [hn]
  · cases hv : spec.values.get? iname.1 with
    | none => simp [hn, hv]
    | some val =>
      cases val with
      | compositeLit elts =>
        simpa [hn, hv] using defaultsOfElts_hasKey dvn k elts m'
      | ident nn => simp [hn, hv]
      | selector x sel => simp [hn, hv]
      | array elt => simp [hn, hv]
      | star x => simp [hn, hv]
      | basicLit v => simp [hn, hv]
      | otherExpr => simp [hn, hv]

/-- C2 as amended.  When several matching declarations of the defaults value
exist, the extractor does not stop at the first: the returned mapping's keys
are the union of the literal keys of ALL matching declarations in the file
(each key mapping to the same reference default-VarName.key, so duplicates
cannot conflict); keys appearing only in later duplicate declarations are
present, not absent. -/
theorem extractDefaults_key_union :
    ∀ (file : GoFile) (structName k : String),
      (∃ v, (k, v) ∈ (extractDefaults file structName).1) ↔
        fileHasDefaultKey file (defaultVarName structName) k = true := by
  intro file structName k
  unfold extractDefaults fileHasDefaultKey
  have h := foldl_key_iff
    (fun m d =>
      match d with
      | .varDecl specs => specs.foldl (defaultsOfSpec (defaultVarName structName)) m
      | _ => m)
    (fun m' => ∃ v, (k, v) ∈ m')
    (fun d =>
      match d with
      | .varDecl specs => specs.any (specKeyTest (defaultVarName structName) k)
      | _ => false)
    ?_ file.decls []
  · simpa using h
  · intro m d
    cases d with
    | varDecl specs =>
      simpa using foldl_key_iff (defaultsOfSpec (defaultVarName structName))
        (fun m' => ∃ v, (k, v) ∈ m') (specKeyTest (defaultVarName structName) k)
        (fun m' s => defaultsOfSpec_hasKey (defaultVarName structName) k s m') specs m
    | typeDecl n ty => simp
    | otherDecl => simp

/-- A file with two defaults declarations for the same type: the first
declares key A, the second key B. -/
def dupDefaultsFile : GoFile :=
  { pkgName := "p",
    decls := [.varDecl [{ names := ["defaultConfig"],
                          values := [.compositeLit [(some (.ident "A"), .basicLit "1")]] }],
              .varDecl [{ names := ["defaultConfig"],
                          values := [.compositeLit [(some (.ident "B"), .basicLit "2")]] }]] }

/-- C2 counterexample.  With two declarations named defaultConfig, the first
carrying only key A and the second only key B, the extractor's result
contains key B — a key appearing only in the later duplicate declaration —
refuting the first-declaration-only claim. -/
theorem extractDefaults_first_only_cex :
    (extractDefaults dupDefaultsFile "Config").1 =
      [("A", "defaultConfig.A"), ("B", "defaultConfig.B")] ∧
    ("B", "defaultConfig.B") ∈ (extractDefaults dupDefaultsFile "Config").1 := by
  constructor
  · rfl
  · decide

/-! ## C3: the skip law -/

/-- C3.  Every constant-block line, registration call and getter block of the
rendered output originates from a non-skipped field (so a skipped field
contributes none of them); the loader's extra parameters are exactly the
skipped fields in declaration order (a sublist of the full declaration
order); and every skipped field both appears as a loader parameter and is
populated in the returned struct literal from its identically-named binding,
which for a skipped field is the loader parameter. -/
theorem skip_law :
    ∀ fields : List fieldInfo,
      constChunksOwn fields = (fields.filter (fun f => !f.Skip)).map constChunkOwn ∧
      regChunksOwn fields = (fields.filter (fun f => !f.Skip)).map regChunkOwn ∧
      getterChunksOwn fields = (fields.filter (fun f => !f.Skip)).map getterChunkOwn ∧
      loadParamChunks fields = (fields.filter (fun f => f.Skip)).map loadParamChunk ∧
      (loadParamChunks fields).Sublist (fields.map loadParamChunk) ∧
      ∀ f ∈ fields, f.Skip = true →
        loadParamChunk f ∈ loadParamChunks fields ∧
        returnChunkOwn f ∈ returnChunksOwn fields := by
  intro fields
  refine ⟨filterMap_skip_eq fields constChunkOwn, filterMap_skip_eq fields regChunkOwn,
          filterMap_skip_eq fields getterChunkOwn, rfl,
          (List.filter_sublist fields).map loadParamChunk, ?_⟩
  intro f hf hskip
  constructor
  · unfold loadParamChunks skippedFields
    exact List.mem_map_of_mem loadParamChunk (List.mem_filter.mpr ⟨hf, by simp [hskip]⟩)
  · exact List.mem_map_of_mem returnChunkOwn hf

/-- Witness for C3 at a two-field list with one skipped field. -/
theorem skip_law_witness :
    loadParamChunk { Name := "b", Typ := "int", Skip := true } ∈
      loadParamChunks [{ Name := "a", Typ := "string" },
                       { Name := "b", Typ := "int", Skip := true }] ∧
    returnChunkOwn { Name := "b", Typ := "int", Skip := true } ∈
      returnChunksOwn [{ Name := "a", Typ := "string" },
                       { Name := "b", Typ := "int", Skip := true }] :=
  (skip_law [{ Name := "a", Typ := "string" }, { Name := "b", Typ := "int", Skip := true }]).2.2.2.2.2
    { Name := "b", Typ := "int", Skip := true } (by decide) rfl

/-! ## C4: the embedded-default law -/

theorem defaultVarName_dot_ne_empty (structName name : String) :
    defaultVarName structName ++ "." ++ name ≠ "" := by
  apply str_append_ne_empty_left
  apply str_append_ne_empty_left
  unfold defaultVarName
  apply str_append_ne_empty_left
  decide

/-- C4.  After the merge step of generateCode, every resolved embedded
field's DefaultValueRef is default-HostType.FieldName — unconditionally, so
regardless of any defaults value the embedded type's own package declares —
and the rendered registration call for each non-skipped embedded field passes
exactly that reference as its default expression. -/
theorem embedded_default_law :
    ∀ (structName : String) (embeddedStructs : List embeddedStructInfo)
      (e : embeddedStructInfo) (f : fieldInfo),
      e ∈ mergeEmbeddedDefaults structName embeddedStructs → f ∈ e.Fields →
      f.DefaultValueRef = defaultVarName structName ++ "." ++ f.Name ∧
      embRegDefaultVal f = defaultVarName structName ++ "." ++ f.Name ∧
      (f.Skip = false →
        regChunkEmb e.TypeName f ∈ regChunksEmb (mergeEmbeddedDefaults structName embeddedStructs)) := by
  intro structName es e f he hf
  rcases List.mem_map.mp he with ⟨e0, he0, heq⟩
  have hfld : f ∈ e0.Fields.map (fun g =>
      { g with DefaultValueRef := defaultVarName structName ++ "." ++ g.Name }) := by
    rw [← heq] at hf
    exact hf
  rcases List.mem_map.mp hfld with ⟨f0, hf0, hfeq⟩
  have href : f.DefaultValueRef = defaultVarName structName ++ "." ++ f.Name := by
    rw [← hfeq]
  refine ⟨href, ?_, ?_⟩
  · unfold embRegDefaultVal
    rw [if_neg (by rw [href]; exact defaultVarName_dot_ne_empty structName f.Name), href]
  · intro hskip
    refine List.mem_flatMap.mpr ⟨e, he, ?_⟩
    refine List.mem_cons_of_mem _ (List.mem_filterMap.mpr ⟨f, hf, ?_⟩)
    rw [hskip]
    rfl

/-- Witness for C4 at a host type Config with one embedded struct field. -/
theorem embedded_default_law_witness :
    ({ Name := "port", Typ := "int",
       DefaultValueRef := "defaultConfig.port" } : fieldInfo).DefaultValueRef =
      defaultVarName "Config" ++ "." ++ "port" ∧
    embRegDefaultVal { Name := "port", Typ := "int",
                       DefaultValueRef := "defaultConfig.port" } =
      defaultVarName "Config" ++ "." ++ "port" ∧
    (({ Name := "port", Typ := "int",
        DefaultValueRef := "defaultConfig.port" } : fieldInfo).Skip = false →
      regChunkEmb "ServerDefaults" { Name := "port", Typ := "int",
                                     DefaultValueRef := "defaultConfig.port" } ∈
        regChunksEmb (mergeEmbeddedDefaults "Config"
          [{ TypeName := "ServerDefaults", PkgAlias := "srv",
             PkgPath := "example.com/srv",
             Fields := [{ Name := "port", Typ := "int" }] }])) :=
  embedded_default_law "Config"
    [{ TypeName := "ServerDefaults", PkgAlias := "srv", PkgPath := "example.com/srv",
       Fields := [{ Name := "port", Typ := "int" }] }]
    { TypeName := "ServerDefaults", PkgAlias := "srv", PkgPath := "example.com/srv",
      Fields := [{ Name := "port", Typ := "int",
                   DefaultValueRef := "defaultConfig.port" }] }
    { Name := "port", Typ := "int", DefaultValueRef := "defaultConfig.port" }
    (by decide) (by decide)

/-! ## C6: the import block -/

theorem time_chunk_ne_emb_chunk (p : String) :
    ("\t\"time\"\n\n" : String) ≠ "\n\t\"" ++ p ++ "\"\n" := by
  intro h
  have h2 := congrArg String.data h
  rw [String.data_append, String.data_append] at h2
  simp at h2

theorem needsTime_eq (fields : List fieldInfo) (es : List embeddedStructInfo) :
    needsTime fields es =
      (fields.any (fun f => f.Typ = "time.Duration") ||
       es.any (fun e => e.Fields.any (fun f => f.Typ = "time.Duration"))) := by
  unfold needsTime
  by_cases h : fields.any (fun f => f.Typ = "time.Duration") = true <;> simp [h]

/-- C6.  The emitted import block always contains the pflag (flag-set)
import; it contains the time (duration) import iff at least one field — own
or embedded — has type tag time.Duration; and it contains one import line
per embedded type's foreign package, its total length being exactly the
optional time line, the pflag line, and one line per embedded package. -/
theorem import_block_law :
    ∀ (fields : List fieldInfo) (es : List embeddedStructInfo),
      (needsTime fields es = true ↔
        ((∃ f ∈ fields, f.Typ = "time.Duration") ∨
         (∃ e ∈ es, ∃ f ∈ e.Fields, f.Typ = "time.Duration"))) ∧
      ("\t\"github.com/spf13/pflag\"\n" ∈ importChunks fields es) ∧
      (("\t\"time\"\n\n" : String) ∈ importChunks fields es ↔ needsTime fields es = true) ∧
      (∀ e ∈ es, ("\n\t\"" ++ e.PkgPath ++ "\"\n") ∈ importChunks fields es) ∧
      (importChunks fields es).length = (if needsTime fields es then 2 else 1) + es.length := by
  intro fields es
  refine ⟨?_, ?_, ?_, ?_, ?_⟩
  · rw [needsTime_eq]
    simp [List.any_eq_true]
  · simp [importChunks]
  · constructor
    · intro h
      cases hneeds : needsTime fields es with
      | true => rfl
      | false =>
        rw [importChunks, hneeds] at h
        simp only [if_neg, Bool.false_eq_true, ite_false, List.nil_append,
          List.mem_append, List.mem_singleton, List.mem_map] at h
        rcases h with h | ⟨e, _, h⟩
        · exact absurd h (by decide)
        · exact absurd h.symm (time_chunk_ne_emb_chunk e.PkgPath)
    · intro h
      rw [importChunks, h]
      simp
  · intro e he
    rw [importChunks]
    refine List.mem_append.mpr (Or.inr ?_)
    exact List.mem_map_of_mem _ he
  · cases hneeds : needsTime fields es with
    | true => simp [importChunks, hneeds]; omega
    | false => simp [importChunks, hneeds]; omega

/-- Witness for C6 at one duration-typed own field and one embedded struct. -/
theorem import_block_law_witness :
    ("\n\t\"" ++ ({ TypeName := "ServerDefaults", PkgAlias := "srv",
                    PkgPath := "example.com/srv",
                    Fields := [] } : embeddedStructInfo).PkgPath ++ "\"\n") ∈
      importChunks [{ Name := "timeout", Typ := "time.Duration" }]
        [{ TypeName := "ServerDefaults", PkgAlias := "srv",
           PkgPath := "example.com/srv", Fields := [] }] :=
  (import_block_law [{ Name := "timeout", Typ := "time.Duration" }]
      [{ TypeName := "ServerDefaults", PkgAlias := "srv",
         PkgPath := "example.com/srv", Fields := [] }]).2.2.2.1
    { TypeName := "ServerDefaults", PkgAlias := "srv",
      PkgPath := "example.com/srv", Fields := [] } (by decide)

/-! ## C8: directive parsing and the recursive walk -/

theorem parseArgsLoop_not_set (sourceDir : String) (d : generateDirective) (l : List String) :
    ∀ d', parseArgsLoop sourceDir d l = .ok d' →
      ("-file" ∉ l → d'.filePath = d.filePath) ∧
      ("-struct" ∉ l → d'.structName = d.structName) ∧
      ("-output" ∉ l → d'.outputFile = d.outputFile) := by
  induction d, l using parseArgsLoop.induct sourceDir with
  | case1 d =>
    intro d' h
    rw [parseArgsLoop] at h
    cases h
    exact ⟨fun _ => rfl, fun _ => rfl, fun _ => rfl⟩
  | case2 d => intro d' h; simp [parseArgsLoop] at h
  | case3 d v rest2 ih =>
    intro d' h
    simp only [parseArgsLoop, if_pos rfl] at h
    obtain ⟨h1, h2, h3⟩ := ih d' h
    refine ⟨fun hm => absurd (List.mem_cons_self _ _) hm, fun hm => ?_, fun hm => ?_⟩
    · exact h2 (fun hmem => hm (List.mem_cons_of_mem _ (List.mem_cons_of_mem _ hmem)))
    · exact h3 (fun hmem => hm (List.mem_cons_of_mem _ (List.mem_cons_of_mem _ hmem)))
  | case4 d hne => intro d' h; simp [parseArgsLoop] at h
  | case5 d v rest2 hne ih =>
    intro d' h
    simp only [parseArgsLoop, if_neg hne, if_pos rfl] at h
    obtain ⟨h1, h2, h3⟩ := ih d' h
    refine ⟨fun hm => ?_, fun hm => absurd (List.mem_cons_self _ _) hm, fun hm => ?_⟩
    · exact h1 (fun hmem => hm (List.mem_cons_of_mem _ (List.mem_cons_of_mem _ hmem)))
    · exact h3 (fun hmem => hm (List.mem_cons_of_mem _ (List.mem_cons_of_mem _ hmem)))
  | case6 d hne1 hne2 => intro d' h; simp [parseArgsLoop] at h
  | case7 d v rest2 hne1 hne2 ih =>
    intro d' h
    simp only [parseArgsLoop, if_neg hne1, if_neg hne2, if_pos rfl] at h
    obtain ⟨h1, h2, h3⟩ := ih d' h
    refine ⟨fun hm => ?_, fun hm => ?_, fun hm => absurd (List.mem_cons_self _ _) hm⟩
    · exact h1 (fun hmem => hm (List.mem_cons_of_mem _ (List.mem_cons_of_mem _ hmem)))
    · exact h2 (fun hmem => hm (List.mem_cons_of_mem _ (List.mem_cons_of_mem _ hmem)))
  | case8 d v hne1 hne2 hne3 hpkg => intro d' h; simp [parseArgsLoop, hne1, hne2, hne3, hpkg] at h
  | case9 d v hne1 hne2 hne3 hpkg w rest2 ih =>
    intro d' h
    simp only [parseArgsLoop, if_neg hne1, if_neg hne2, if_neg hne3, hpkg, if_pos] at h
    obtain ⟨h1, h2, h3⟩ := ih d' h
    refine ⟨fun hm => ?_, fun hm => ?_, fun hm => ?_⟩
    · exact h1 (fun hmem => hm (List.mem_cons_of_mem _ (List.mem_cons_of_mem _ hmem)))
    · exact h2 (fun hmem => hm (List.mem_cons_of_mem _ (List.mem_cons_of_mem _ hmem)))
    · exact h3 (fun hmem => hm (List.mem_cons_of_mem _ (List.mem_cons_of_mem _ hmem)))
  | case10 d v rest2 hne1 hne2 hne3 hne4 ih =>
    intro d' h
    rw [parseArgsLoop.eq_def] at h
    simp only [] at h
    rw [if_neg hne1, if_neg hne2, if_neg hne3, if_neg hne4] at h
    obtain ⟨h1, h2, h3⟩ := ih d' h
    refine ⟨fun hm => ?_, fun hm => ?_, fun hm => ?_⟩
    · exact h1 (fun hmem => hm (List.mem_cons_of_mem _ hmem))
    · exact h2 (fun hmem => hm (List.mem_cons_of_mem _ hmem))
    · exact h3 (fun hmem => hm (List.mem_cons_of_mem _ hmem))

theorem goClean_ne_empty (path : String) : goClean path ≠ "" := by
  unfold goClean
  by_cases h0 : path = ""
  · simp [h0]
  · rw [if_neg h0]
    dsimp only
    split
    · exact str_append_ne_empty_left "/" _ (by decide)
    · split
      · decide
      · assumption

theorem filepathJoin_ne_empty (a b : String) (ha : a ≠ "") : filepathJoin a b ≠ "" := by
  unfold filepathJoin
  rw [if_neg (by simp [ha]), if_neg ha]
  split
  · exact goClean_ne_empty a
  · exact goClean_ne_empty (a ++ "/" ++ b)

theorem filepathDir_ne_empty (path : String) : filepathDir path ≠ "" :=
  goClean_ne_empty _

theorem parseArgsLoop_lineNumber (sourceDir : String) (d : generateDirective)
    (l : List String) :
    ∀ m : Nat, parseArgsLoop sourceDir { d with lineNumber := m } l =
      (parseArgsLoop sourceDir d l).map (fun r => { r with lineNumber := m }) := by
  induction d, l using parseArgsLoop.induct sourceDir with
  | case1 d => intro m; simp [parseArgsLoop, Except.map]
  | case2 d => intro m; simp [parseArgsLoop, Except.map]
  | case3 d v rest2 ih =>
    intro m
    simp only [parseArgsLoop, if_pos rfl]
    exact ih m
  | case4 d hne => intro m; simp [parseArgsLoop, hne, Except.map]
  | case5 d v rest2 hne ih =>
    intro m
    simp only [parseArgsLoop, if_neg hne, if_pos rfl]
    exact ih m
  | case6 d hne1 hne2 => intro m; simp [parseArgsLoop, hne1, hne2, Except.map]
  | case7 d v rest2 hne1 hne2 ih =>
    intro m
    simp only [parseArgsLoop, if_neg hne1, if_neg hne2, if_pos rfl]
    exact ih m
  | case8 d v hne1 hne2 hne3 hpkg =>
    intro m; simp [parseArgsLoop, hne1, hne2, hne3, hpkg, Except.map]
  | case9 d v hne1 hne2 hne3 hpkg w rest2 ih =>
    intro m
    simp only [parseArgsLoop, if_neg hne1, if_neg hne2, if_neg hne3, hpkg, if_pos]
    exact ih m
  | case10 d v rest2 hne1 hne2 hne3 hne4 ih =>
    intro m
    rw [parseArgsLoop.eq_def, parseArgsLoop.eq_def]
    simp only []
    rw [if_neg hne1, if_neg hne2, if_neg hne3, if_neg hne4,
      if_neg hne1, if_neg hne2, if_neg hne3, if_neg hne4]
    exact ih m

theorem parseGenerateDirective_error_lineNum (p args : String) (n m : Nat) (e : String)
    (h : parseGenerateDirective p args n = .error e) :
    parseGenerateDirective p args m = .error e := by
  unfold parseGenerateDirective at h ⊢
  dsimp only at h ⊢
  have hl := parseArgsLoop_lineNumber (filepathDir p)
    { sourceFile := p, lineNumber := n } (expandEq (goFields args)) m
  dsimp only at hl
  cases hres : parseArgsLoop (filepathDir p)
      { sourceFile := p, filePath := "", structName := "", outputFile := "",
        pkgName := "", lineNumber := n }
      (expandEq (goFields args)) with
  | error e2 =>
    rw [hres] at h
    rw [hl, hres]
    simp only [Except.map] at h ⊢
    simpa using h
  | ok d =>
    rw [hres] at h
    rw [hl, hres]
    simp only [Except.map]
    by_cases hf : d.filePath = ""
    · simpa [hf] using h
    · by_cases hs : d.structName = ""
      · simpa [hf, hs] using h
      · by_cases ho : d.outputFile = ""
        · simpa [hf, hs, ho] using h
        · simp [hf, hs, ho] at h

theorem parseArgsLoop_three (sourceDir f s o : String) (d : generateDirective) :
    parseArgsLoop sourceDir d ["-file", f, "-struct", s, "-output", o] =
      .ok { d with filePath := filepathJoin sourceDir f, structName := s,
                   outputFile := filepathJoin sourceDir o } := by
  simp [parseArgsLoop]

/-- The error message wrapping a directive parse failure during discovery. -/
def directiveErrMsg (path : String) (lineNum : Nat) (e : String) : String :=
  "failed to parse directive in " ++ path ++ ":" ++ toString lineNum ++ ": " ++ e

/-- Parse failure of a directive's argument text.  The line number passed to
the parser only lands in the parsed record, never in an error, so failure at
one line number is failure at every line number. -/
def parseFails (path args : String) : Prop :=
  ∃ e, parseGenerateDirective path args 0 = .error e

theorem scanFileLines_error_shape (path : String) (lines : List String) :
    ∀ (n : Nat) (msg : String), scanFileLines path n lines = .error msg →
      ∃ j line args e, lines.get? j = some line ∧ matchGenerateLine line = some args ∧
        parseGenerateDirective path args (n + j) = .error e ∧
        msg = directiveErrMsg path (n + j) e := by
  induction lines with
  | nil => intro n msg h; simp [scanFileLines] at h
  | cons line rest ih =>
    intro n msg h
    rw [scanFileLines.eq_def] at h
    simp only [] at h
    cases hm : matchGenerateLine line with
    | none =>
      rw [hm] at h
      rcases ih (n + 1) msg h with ⟨j, l0, args, e, hget, hmatch, hparse, hmsg⟩
      refine ⟨j + 1, l0, args, e, by simpa using hget, hmatch, ?_, ?_⟩
      · rw [show n + (j + 1) = n + 1 + j by omega]; exact hparse
      · rw [show n + (j + 1) = n + 1 + j by omega]; exact hmsg
    | some args =>
      rw [hm] at h
      simp only [] at h
      cases hp : parseGenerateDirective path args n with
      | error e =>
        rw [hp] at h
        simp only [] at h
        refine ⟨0, line, args, e, rfl, hm, by simpa using hp, ?_⟩
        simpa [directiveErrMsg] using h.symm
      | ok dd =>
        rw [hp] at h
        simp only [] at h
        cases hs : scanFileLines path (n + 1) rest with
        | error e2 =>
          rw [hs] at h
          simp only [] at h
          rcases ih (n + 1) e2 hs with ⟨j, l0, args2, e, hget, hmatch, hparse, hmsg⟩
          refine ⟨j + 1, l0, args2, e, by simpa using hget, hmatch, ?_, ?_⟩
          · rw [show n + (j + 1) = n + 1 + j by omega]; exact hparse
          · rw [show n + (j + 1) = n + 1 + j by omega]
            rw [← hmsg]
            simpa using h.symm
        | ok ds => rw [hs] at h; simp only [] at h; cases h

theorem scanFileLines_fails (path : String) (lines : List String) :
    ∀ n : Nat,
      (∃ j line args, lines.get? j = some line ∧ matchGenerateLine line = some args ∧
        parseFails path args) →
      ∃ msg, scanFileLines path n lines = .error msg := by
  induction lines with
  | nil =>
    rintro n ⟨j, l0, args, hget, _, _⟩
    simp at hget
  | cons line rest ih =>
    rintro n ⟨j, l0, args, hget, hmatch, hfail⟩
    rw [scanFileLines.eq_def]
    simp only []
    cases j with
    | zero =>
      have hl0 : l0 = line := by simpa using hget.symm
      subst hl0
      rw [hmatch]
      simp only []
      cases hp : parseGenerateDirective path args n with
      | error e => exact ⟨_, rfl⟩
      | ok dd =>
        rcases hfail with ⟨e, he⟩
        have h2 := parseGenerateDirective_error_lineNum path args 0 n e he
        rw [h2] at hp
        cases hp
    | succ j2 =>
      rcases ih (n + 1) ⟨j2, l0, args, by simpa using hget, hmatch, hfail⟩ with ⟨msg, hmsg⟩
      cases hm : matchGenerateLine line with
      | none => exact ⟨msg, by simp only []; rw [hmsg]⟩
      | some args2 =>
        simp only []
        cases hp : parseGenerateDirective path args2 n with
        | error e => exact ⟨_, rfl⟩
        | ok dd => exact ⟨msg, by simp only []; rw [hmsg]⟩

theorem findGenerateDirectives_aborts :
    ∀ files : List (String × List String),
      (∃ pl ∈ files, walkFilterOk pl.1 = true ∧
        ∃ j line args, pl.2.get? j = some line ∧ matchGenerateLine line = some args ∧
          parseFails pl.1 args) →
      ∃ p k e, findGenerateDirectives files = .error (directiveErrMsg p k e) ∧
        ∃ ls, (p, ls) ∈ files ∧ ∃ line args, ls.get? (k - 1) = some line ∧
          matchGenerateLine line = some args ∧
          parseGenerateDirective p args k = .error e := by
  intro files
  induction files with
  | nil => rintro ⟨pl, hpl, _⟩; cases hpl
  | cons hd rest ih =>
    rintro ⟨pl, hpl, hfilter, hdir⟩
    obtain ⟨p0, ls0⟩ := hd
    rw [findGenerateDirectives.eq_def]
    simp only []
    by_cases hf : walkFilterOk p0 = true
    · rw [if_pos hf]
      cases hscan : scanFileLines p0 1 ls0 with
      | error msg =>
        rcases scanFileLines_error_shape p0 ls0 1 msg hscan with
          ⟨j, l0, args, e, hget, hmatch, hparse, hmsg⟩
        refine ⟨p0, 1 + j, e, ?_, ls0, List.mem_cons_self _ _, l0, args, ?_, hmatch, hparse⟩
        · rw [hmsg]
        · simpa [show 1 + j - 1 = j by omega] using hget
      | ok ds =>
        rcases List.mem_cons.mp hpl with heq | hmem
        · have hex : ∃ j line args, ls0.get? j = some line ∧
              matchGenerateLine line = some args ∧ parseFails p0 args := by
            rcases hdir with ⟨j, l0, args, hget, hmatch, hfail⟩
            rw [heq] at hget hfail
            exact ⟨j, l0, args, hget, hmatch, hfail⟩
          rcases scanFileLines_fails p0 ls0 1 hex with ⟨msg, hmsg⟩
          rw [hmsg] at hscan
          cases hscan
        · rcases ih ⟨pl, hmem, hfilter, hdir⟩ with ⟨p, k, e, hfind, ls, hls, hrest⟩
          rw [hfind]
          exact ⟨p, k, e, rfl, ls, List.mem_cons_of_mem _ hls, hrest⟩
    · rw [if_neg hf]
      rcases List.mem_cons.mp hpl with heq | hmem
      · rw [heq] at hfilter; exact absurd hfilter hf
      · rcases ih ⟨pl, hmem, hfilter, hdir⟩ with ⟨p, k, e, hfind, ls, hls, hrest⟩
        exact ⟨p, k, e, hfind, ls, List.mem_cons_of_mem _ hls, hrest⟩

/-- A one-file tree whose single directive lacks the -struct argument. -/
def failingTree : List (String × List String) :=
  [("pkg/conf.go", ["//go:generate struct-to-pflags -file conf.go -output conf.gen.go"])]

/-- C8.  First, a directive whose argument tokens are missing any of -file,
-struct or -output fails to parse.  Second, whenever a scanned file of the
walked tree contains a directive line whose arguments fail to parse, the
whole discovery pass aborts with an error naming an offending file and line
number, returning no directive list, so no validation can run.  Third, a
directive supplying -file, -struct and -output but no -package or -pkg flag parses
successfully. -/
theorem directive_parse_law :
    (∀ (sourceFile args : String) (lineNum : Nat),
      ("-file" ∉ expandEq (goFields args) ∨ "-struct" ∉ expandEq (goFields args) ∨
       "-output" ∉ expandEq (goFields args)) →
      ∃ e, parseGenerateDirective sourceFile args lineNum = .error e) ∧
    (∀ files : List (String × List String),
      (∃ pl ∈ files, walkFilterOk pl.1 = true ∧
        ∃ j line args, pl.2.get? j = some line ∧ matchGenerateLine line = some args ∧
          parseFails pl.1 args) →
      ∃ p k e, findGenerateDirectives files = .error (directiveErrMsg p k e) ∧
        ∃ ls, (p, ls) ∈ files ∧ ∃ line args, ls.get? (k - 1) = some line ∧
          matchGenerateLine line = some args ∧
          parseGenerateDirective p args k = .error e) ∧
    (∀ (sourceFile args : String) (lineNum : Nat) (f s o : String),
      expandEq (goFields args) = ["-file", f, "-struct", s, "-output", o] → s ≠ "" →
      parseGenerateDirective sourceFile args lineNum =
        .ok { sourceFile := sourceFile, lineNumber := lineNum,
              filePath := filepathJoin (filepathDir sourceFile) f,
              structName := s,
              outputFile := filepathJoin (filepathDir sourceFile) o,
              pkgName := "" }) := by
  refine ⟨?_, findGenerateDirectives_aborts, ?_⟩
  · intro sf args n hmiss
    unfold parseGenerateDirective
    dsimp only
    cases hres : parseArgsLoop (filepathDir sf)
        { sourceFile := sf, filePath := "", structName := "", outputFile := "",
          pkgName := "", lineNumber := n } (expandEq (goFields args)) with
    | error e => exact ⟨e, rfl⟩
    | ok d =>
      obtain ⟨h1, h2, h3⟩ := parseArgsLoop_not_set (filepathDir sf) _ _ d hres
      simp only []
      rcases hmiss with hm | hm | hm
      · exact ⟨"missing -file flag", by rw [if_pos (h1 hm)]⟩
      · by_cases hfp : d.filePath = ""
        · exact ⟨"missing -file flag", by rw [if_pos hfp]⟩
        · exact ⟨"missing -struct flag", by rw [if_neg hfp, if_pos (h2 hm)]⟩
      · by_cases hfp : d.filePath = ""
        · exact ⟨"missing -file flag", by rw [if_pos hfp]⟩
        · by_cases hsn : d.structName = ""
          · exact ⟨"missing -struct flag", by rw [if_neg hfp, if_pos hsn]⟩
          · exact ⟨"missing -output flag", by rw [if_neg hfp, if_neg hsn, if_pos (h3 hm)]⟩
  · intro sf args n f s o hparts hs
    unfold parseGenerateDirective
    dsimp only
    rw [hparts, parseArgsLoop_three]
    simp only []
    rw [if_neg (filepathJoin_ne_empty (filepathDir sf) f (filepathDir_ne_empty sf)),
        if_neg hs,
        if_neg (filepathJoin_ne_empty (filepathDir sf) o (filepathDir_ne_empty sf))]

/-- Witness for C8: a directive without -struct fails; the one-file tree
holding it aborts discovery; the same directive completed with -struct (and
still without -package) parses. -/
theorem directive_parse_law_witness :
    (∃ e, parseGenerateDirective "a/main.go" "-struct config" 5 = .error e) ∧
    (∃ p k e, findGenerateDirectives failingTree = .error (directiveErrMsg p k e) ∧
      ∃ ls, (p, ls) ∈ failingTree ∧ ∃ line args, ls.get? (k - 1) = some line ∧
        matchGenerateLine line = some args ∧
        parseGenerateDirective p args k = .error e) ∧
    parseGenerateDirective "a/b.go" "-file=x.go -struct=conf -output=x.gen.go" 3 =
      .ok { sourceFile := "a/b.go", lineNumber := 3,
            filePath := filepathJoin (filepathDir "a/b.go") "x.go",
            structName := "conf",
            outputFile := filepathJoin (filepathDir "a/b.go") "x.gen.go",
            pkgName := "" } :=
  ⟨directive_parse_law.1 "a/main.go" "-struct config" 5 (Or.inl (by decide)),
   directive_parse_law.2.1 failingTree
     ⟨("pkg/conf.go", ["//go:generate struct-to-pflags -file conf.go -output conf.gen.go"]),
      List.mem_cons_self _ _, by decide,
      0, "//go:generate struct-to-pflags -file conf.go -output conf.gen.go",
      "-file conf.go -output conf.gen.go", by decide, by decide,
      "missing -struct flag", by rfl⟩,
   directive_parse_law.2.2 "a/b.go" "-file=x.go -struct=conf -output=x.gen.go" 3
     "x.go" "conf" "x.gen.go" (by decide) (by decide)⟩
